import Mathlib

/-!
Shallow embedding of `json_matcher.go` from silenium-dev/go-json-matcher.

The Go package matches a decoded JSON value (the *actual*) against a
pattern value; patterns are literals, `#`-prefixed marker strings, or
arbitrary compositions through arrays and objects.  The embedding below
translates each Go function of the package into a Lean function over an
inductive model `JValue` of the values produced by `json.Unmarshal` into
`interface{}`:

  * JSON `null` decodes to the nil interface (an invalid `reflect.Value`),
    modelled by `JValue.null`;
  * all JSON numbers decode to `float64`, modelled by `JValue.num` over
    `Rat` (every decoded `float64` is a finite rational, and
    `reflect.DeepEqual` on them is plain equality);
  * arrays decode to `[]interface{}` (`JValue.arr`), objects to
    `map[string]interface{}` (`JValue.obj`, an association list whose keys
    are unique for any value actually produced by the decoder — see `wfJ`).

The standard-library collaborators (`encoding/json`, `regexp`,
`time.Parse`, `fmt`) are external to the repository: the byte decoder and
the regex/date functions are parameters of the embedding (`Oracles`,
`unmarshal`), and `fmt`'s default value rendering is modelled by
`goSprint`.

A Go runtime panic (reachable in `_matchSlice` through
`vY.Index(i)` with `i >= vY.Len()`) is modelled by the `none` result of
the `MRes` type; all non-panicking paths return `some (conflicts, err)`.
-/

/-- Model of a decoded JSON value (`interface{}` holding the result of
`json.Unmarshal`). -/
inductive JValue where
  | null
  | bool (b : Bool)
  | num (q : Rat)
  | str (s : String)
  | arr (elems : List JValue)
  | obj (entries : List (String × JValue))

mutual
/-- Decidable equality for `JValue` (hand-written: automatic deriving does
not handle the nesting through `List`). -/
def decEqJ : (a b : JValue) → Decidable (a = b)
  | .null, .null => isTrue rfl
  | .null, .bool _ => isFalse (fun h => JValue.noConfusion h)
  | .null, .num _ => isFalse (fun h => JValue.noConfusion h)
  | .null, .str _ => isFalse (fun h => JValue.noConfusion h)
  | .null, .arr _ => isFalse (fun h => JValue.noConfusion h)
  | .null, .obj _ => isFalse (fun h => JValue.noConfusion h)
  | .bool _, .null => isFalse (fun h => JValue.noConfusion h)
  | .bool a, .bool b =>
    match Bool.decEq a b with
    | isTrue h => isTrue (by rw [h])
    | isFalse h => isFalse (fun hh => h (by cases hh; rfl))
  | .bool _, .num _ => isFalse (fun h => JValue.noConfusion h)
  | .bool _, .str _ => isFalse (fun h => JValue.noConfusion h)
  | .bool _, .arr _ => isFalse (fun h => JValue.noConfusion h)
  | .bool _, .obj _ => isFalse (fun h => JValue.noConfusion h)
  | .num _, .null => isFalse (fun h => JValue.noConfusion h)
  | .num _, .bool _ => isFalse (fun h => JValue.noConfusion h)
  | .num a, .num b =>
    match decEq a b with
    | isTrue h => isTrue (by rw [h])
    | isFalse h => isFalse (fun hh => h (by cases hh; rfl))
  | .num _, .str _ => isFalse (fun h => JValue.noConfusion h)
  | .num _, .arr _ => isFalse (fun h => JValue.noConfusion h)
  | .num _, .obj _ => isFalse (fun h => JValue.noConfusion h)
  | .str _, .null => isFalse (fun h => JValue.noConfusion h)
  | .str _, .bool _ => isFalse (fun h => JValue.noConfusion h)
  | .str _, .num _ => isFalse (fun h => JValue.noConfusion h)
  | .str a, .str b =>
    match String.decEq a b with
    | isTrue h => isTrue (by rw [h])
    | isFalse h => isFalse (fun hh => h (by cases hh; rfl))
  | .str _, .arr _ => isFalse (fun h => JValue.noConfusion h)
  | .str _, .obj _ => isFalse (fun h => JValue.noConfusion h)
  | .arr _, .null => isFalse (fun h => JValue.noConfusion h)
  | .arr _, .bool _ => isFalse (fun h => JValue.noConfusion h)
  | .arr _, .num _ => isFalse (fun h => JValue.noConfusion h)
  | .arr _, .str _ => isFalse (fun h => JValue.noConfusion h)
  | .arr a, .arr b =>
    match decEqJList a b with
    | isTrue h => isTrue (by rw [h])
    | isFalse h => isFalse (fun hh => h (by cases hh; rfl))
  | .arr _, .obj _ => isFalse (fun h => JValue.noConfusion h)
  | .obj _, .null => isFalse (fun h => JValue.noConfusion h)
  | .obj _, .bool _ => isFalse (fun h => JValue.noConfusion h)
  | .obj _, .num _ => isFalse (fun h => JValue.noConfusion h)
  | .obj _, .str _ => isFalse (fun h => JValue.noConfusion h)
  | .obj _, .arr _ => isFalse (fun h => JValue.noConfusion h)
  | .obj a, .obj b =>
    match decEqJPairs a b with
    | isTrue h => isTrue (by rw [h])
    | isFalse h => isFalse (fun hh => h (by cases hh; rfl))

/-- Decidable equality for lists of `JValue`. -/
def decEqJList : (a b : List JValue) → Decidable (a = b)
  | [], [] => isTrue rfl
  | [], _ :: _ => isFalse (fun h => List.noConfusion h)
  | _ :: _, [] => isFalse (fun h => List.noConfusion h)
  | x :: xs, y :: ys =>
    match decEqJ x y with
    | isFalse h1 => isFalse (fun hh => h1 (by cases hh; rfl))
    | isTrue h1 =>
      match decEqJList xs ys with
      | isTrue h2 => isTrue (by rw [h1, h2])
      | isFalse h2 => isFalse (fun hh => h2 (by cases hh; rfl))

/-- Decidable equality for association lists of `JValue`. -/
def decEqJPairs : (a b : List (String × JValue)) → Decidable (a = b)
  | [], [] => isTrue rfl
  | [], _ :: _ => isFalse (fun h => List.noConfusion h)
  | _ :: _, [] => isFalse (fun h => List.noConfusion h)
  | (k1, v1) :: xs, (k2, v2) :: ys =>
    match String.decEq k1 k2 with
    | isFalse h0 => isFalse (fun hh => h0 (by cases hh; rfl))
    | isTrue h0 =>
      match decEqJ v1 v2 with
      | isFalse h1 => isFalse (fun hh => h1 (by cases hh; rfl))
      | isTrue h1 =>
        match decEqJPairs xs ys with
        | isTrue h2 => isTrue (by rw [h0, h1, h2])
        | isFalse h2 => isFalse (fun hh => h2 (by cases hh; rfl))
end

instance : DecidableEq JValue := decEqJ

/-- Model of the Go `Conflict` struct: `err` models the `Error` field
(`nil` ↦ `none`).  A Go `nil` interface in `Expected`/`Actual` is the
same datum as a decoded JSON null, hence represented by `JValue.null`. -/
structure Conflict where
  path : String
  expected : JValue
  actual : JValue
  err : Option String
deriving DecidableEq

/-- Result of a matching function: `none` models a Go runtime panic,
`some (conflicts, err)` a normal return. -/
abbrev MRes := Option (List Conflict × Option String)

/-- Model of `strings.HasPrefix s pre` (byte prefix; on our model
characterwise prefix, identical for any Unicode text). -/
def goStartsWith (s pre : String) : Bool :=
  pre.data.isPrefixOf s.data

/-- Model of `strings.SplitN(s, " ", 2)` on the underlying characters:
split at the first space only.  A one-element Go result is `(s, none)`,
a two-element result `[a, b]` is `(a, some b)`. -/
def splitOnFirstSpace : List Char → List Char × Option (List Char)
  | [] => ([], none)
  | c :: rest =>
    if c = ' ' then ([], some rest)
    else
      let r := splitOnFirstSpace rest
      (c :: r.1, r.2)

/-- String-level wrapper for `strings.SplitN(s, " ", 2)`. -/
def splitN2 (s : String) : String × Option String :=
  let r := splitOnFirstSpace s.data
  (String.mk r.1, r.2.map String.mk)

/-- Model of the `reflect.Kind` names printed by `%v` for the kinds a
decoded JSON value can have (`reflect.ValueOf(nil)` has kind `invalid`). -/
def goKindName : JValue → String
  | .null => "invalid"
  | .bool _ => "bool"
  | .num _ => "float64"
  | .str _ => "string"
  | .arr _ => "slice"
  | .obj _ => "map"

/-- Model of `vY.MapIndex(key)` over the association-list representation
of a decoded object (decoder-produced objects have unique keys, so the
first hit is the only hit). -/
def lookupJ : List (String × JValue) → String → Option JValue
  | [], _ => none
  | (k, v) :: rest, key => if k = key then some v else lookupJ rest key

/-- Port of `getMarker`: a string starting with `#` is a marker; the
marker text is the whole string. -/
def getMarker (y : JValue) : Bool × String :=
  match y with
  | .str s => if goStartsWith s "#" then (true, s) else (false, "")
  | _ => (false, "")

/-- Port of `isMarker`: `y` is exactly the given marker string. -/
def isMarker (y : JValue) (marker : String) : Bool :=
  let gm := getMarker y
  gm.1 && marker == gm.2

/-- Hex digit as accepted by the case-insensitive classes `[a-f0-9]` of
`uuidRe` / `uuidV4Re`. -/
def isHexDigit (c : Char) : Bool :=
  decide (('0' ≤ c ∧ c ≤ '9') ∨ ('a' ≤ c ∧ c ≤ 'f') ∨ ('A' ≤ c ∧ c ≤ 'F'))

/-- Split a character list at every occurrence of `sep` (used to port the
dash-separated UUID group structure of `uuidRe`/`uuidV4Re`). -/
def splitOnChar (sep : Char) : List Char → List (List Char)
  | [] => [[]]
  | c :: rest =>
    if c = sep then [] :: splitOnChar sep rest
    else
      match splitOnChar sep rest with
      | [] => [[c]]
      | g :: gs => (c :: g) :: gs

/-- Port of `uuidRe`:
`(?i)^[a-f0-9]{8}-[a-f0-9]{4}-[a-f0-9]{4}-[a-f0-9]{4}-[a-f0-9]{12}$`. -/
def uuidMatchString (s : String) : Bool :=
  match splitOnChar '-' s.data with
  | [a, b, c, d, e] =>
    a.length == 8 && b.length == 4 && c.length == 4 && d.length == 4 &&
      e.length == 12 && (a ++ b ++ c ++ d ++ e).all isHexDigit
  | _ => false

/-- Port of `uuidV4Re`:
`(?i)^[a-f0-9]{8}-[a-f0-9]{4}-4[a-f0-9]{3}-[89aAbB][a-f0-9]{3}-[a-f0-9]{12}$`. -/
def uuidV4MatchString (s : String) : Bool :=
  match splitOnChar '-' s.data with
  | [a, b, c, d, e] =>
    a.length == 8 && b.length == 4 && c.length == 4 && d.length == 4 &&
      e.length == 12 && (a ++ b ++ e).all isHexDigit &&
      (match c with
       | c0 :: ct => c0 == '4' && ct.all isHexDigit
       | [] => false) &&
      (match d with
       | d0 :: dt =>
         (d0 == '8' || d0 == '9' || d0 == 'a' || d0 == 'A' || d0 == 'b' ||
           d0 == 'B') && dt.all isHexDigit
       | [] => false)
  | _ => false

/-- External collaborators from the Go standard library; the matcher is
parametric in their behaviour.  `regexCompile` models `regexp.Compile`
(compile error message, or the compiled `MatchString` predicate);
`parseDate` models whether `time.Parse("2006-01-02", s)` succeeds and
`parseDatetime` whether `time.Parse(time.RFC3339, s)` succeeds. -/
structure Oracles where
  regexCompile : String → Except String (String → Bool)
  parseDate : String → Bool
  parseDatetime : String → Bool

/-- Concrete `Oracles` instance used for closed evaluations: a regex
engine that rejects every pattern, and date parsers that fail.  (The
claims evaluated with it never reach the date parsers, and reach the
regex engine only where any engine behaves alike.) -/
def O0 : Oracles where
  regexCompile := fun _ => .error "error parsing regexp"
  parseDate := fun _ => false
  parseDatetime := fun _ => false

mutual
/-- Model of `fmt.Sprint` applied to a `reflect.Value` holding a decoded
JSON value (external collaborator, Go `fmt` package): `fmt` prints the
value held by a `reflect.Value`.  The exact `float64` formatting of `fmt`
is approximated by the rational's rendering; no theorem below depends on
the rendering. -/
def goSprint : JValue → String
  | .null => "<nil>"
  | .bool b => if b then "true" else "false"
  | .num q => toString q
  | .str s => s
  | .arr xs => "[" ++ goSprintList xs ++ "]"
  | .obj kvs => "map[" ++ goSprintPairs kvs ++ "]"

/-- Space-separated rendering of slice elements for `goSprint`. -/
def goSprintList : List JValue → String
  | [] => ""
  | [v] => goSprint v
  | v :: rest => goSprint v ++ " " ++ goSprintList rest

/-- Space-separated `key:value` rendering of map entries for `goSprint`. -/
def goSprintPairs : List (String × JValue) → String
  | [] => ""
  | [(k, v)] => k ++ ":" ++ goSprint v
  | (k, v) :: rest => k ++ ":" ++ goSprint v ++ " " ++ goSprintPairs rest
end

/-- Rendering of `fmt.Sprint(xValue)` where `xValue` is the
possibly-invalid `reflect.Value` returned by `MapIndex`. -/
def goSprintOpt : Option JValue → String
  | none => "<invalid reflect.Value>"
  | some v => goSprint v

/-- Port of `_matchZero`: a nil spec against `x`; nil `x` matches, any
valid `x` is one conflict with nil `Expected`. -/
def _matchZero (path : String) (x : JValue) : List Conflict :=
  match x with
  | .null => []
  | _ => [{ path := path, expected := .null, actual := x, err := none }]

/-- Port of `_matchPrimitive`: `reflect.DeepEqual` on decoded JSON values
is structural equality. -/
def _matchPrimitive (path : String) (x y : JValue) : List Conflict :=
  if x = y then [] else [{ path := path, expected := y, actual := x, err := none }]

/-- Port of `_matchWithMarker`.  Notes on the source's reflect-based
tests over our value model: decoded JSON values never have pointer kind,
so in the `#null` case `xV.Kind() != reflect.Ptr` always holds (conflict)
and in the `#notnull` case the function returns with no conflict; decoded
values are never Go structs, so the `time.Time` arms of `#date` /
`#datetime` are unreachable; the `x.(string)` type assertions after a
`String` kind test always succeed. -/
def _matchWithMarker (O : Oracles) (path : String) (x : JValue) (marker : String) :
    List Conflict × Option String :=
  let pc : Conflict := { path := path, expected := .str marker, actual := x, err := none }
  match x with
  | .null =>
    -- `x == nil` short circuit (whole marker text compared), and the
    -- `!xV.IsValid()` return for any other marker
    if marker = "#ignore" ∨ marker = "#null" ∨ marker = "#present" then ([], none)
    else ([pc], none)
  | _ =>
    let parts := splitN2 marker
    if parts.1 = "#ignore" then ([], none)
    else if parts.1 = "#null" then ([pc], none)
    else if parts.1 = "#notnull" then ([], none)
    else if parts.1 = "#present" then ([], none)
    else if parts.1 = "#notpresent" then ([pc], none)
    else if parts.1 = "#array" then
      match x with
      | .arr _ => ([], none)
      | _ => ([pc], none)
    else if parts.1 = "#object" then
      match x with
      | .obj _ => ([], none)
      | _ => ([pc], none)
    else if parts.1 = "#bool" ∨ parts.1 = "#boolean" then
      match x with
      | .bool _ => ([], none)
      | _ => ([pc], none)
    else if parts.1 = "#number" then
      match x with
      | .num _ => ([], none)
      | _ => ([pc], none)
    else if parts.1 = "#string" then
      match x with
      | .str _ => ([], none)
      | _ => ([pc], none)
    else if parts.1 = "#date" then
      match x with
      | .str s => if O.parseDate s then ([], none) else ([pc], none)
      | _ => ([pc], none)
    else if parts.1 = "#datetime" then
      match x with
      | .str s => if O.parseDatetime s then ([], none) else ([pc], none)
      | _ => ([pc], none)
    else if parts.1 = "#uuid" then
      match x with
      | .str s => if uuidMatchString s then ([], none) else ([pc], none)
      | _ => ([pc], none)
    else if parts.1 = "#uuid-v4" then
      match x with
      | .str s => if uuidV4MatchString s then ([], none) else ([pc], none)
      | _ => ([pc], none)
    else if parts.1 = "#regex" then
      match parts.2 with
      | none => ([pc], some "expected exactly one argument for #regex")
      | some arg =>
        match O.regexCompile arg with
        | .error e => ([pc], some ("invalid regex argument to #regex: " ++ e))
        | .ok rMatch =>
          match x with
          | .str s => if rMatch s then ([], none) else ([pc], none)
          | _ => ([pc], none)
    else
      ([pc], some ("unsupported pattern '" ++ marker ++ "'"))

/-- Size bound used to justify termination of the matcher: an element
retrieved from a list is smaller than the list. -/
theorem sizeOf_getElem {l : List JValue} {n : Nat} {a : JValue}
    (h : l[n]? = some a) : sizeOf a < sizeOf l := by
  induction l generalizing n with
  | nil => simp at h
  | cons b t ih =>
    cases n with
    | zero =>
      simp at h
      subst h
      simp
      omega
    | succ m =>
      simp at h
      have hlt := ih h
      simp
      omega

/-- Size bound used to justify termination of the matcher: a value found
by `lookupJ` is smaller than the association list. -/
theorem sizeOf_lookupJ {l : List (String × JValue)} {k : String} {v : JValue}
    (h : lookupJ l k = some v) : sizeOf v < sizeOf l := by
  induction l with
  | nil => simp [lookupJ] at h
  | cons p t ih =>
    obtain ⟨a, b⟩ := p
    simp only [lookupJ] at h
    split at h
    · cases h
      simp
      omega
    · have hlt := ih h
      simp
      omega

mutual
/-- Port of `_match` (the dispatcher): nil spec via `_matchZero`, marker
strings via `_matchWithMarker`, nil/kind-mismatch conflicts, then the
kind-specific matcher.  Every kind a decoded JSON value can have (`Bool`,
`Float64`, `String`, `Slice`, `Map`) is registered in the source's
`matchers` table, so the final unsupported-kind error return of the
source is unreachable over this value model. -/
def _match (O : Oracles) (path : String) (x spec : JValue) : MRes :=
  let pc : Conflict := { path := path, expected := spec, actual := x, err := none }
  match hspec : spec with
  | .null => some (_matchZero path x, none)
  | .str s =>
    if goStartsWith s "#" then some (_matchWithMarker O path x s)
    else
      match x with
      | .null => some ([pc], none)
      | .str _ => some (_matchPrimitive path x spec, none)
      | _ => some ([pc], none)
  | .bool _ =>
    match x with
    | .null => some ([pc], none)
    | .bool _ => some (_matchPrimitive path x spec, none)
    | _ => some ([pc], none)
  | .num _ =>
    match x with
    | .null => some ([pc], none)
    | .num _ => some (_matchPrimitive path x spec, none)
    | _ => some ([pc], none)
  | .arr _ =>
    match hx : x with
    | .null => some ([pc], none)
    | .arr _ => _matchSlice O path x spec
    | _ => some ([pc], none)
  | .obj _ =>
    match hx : x with
    | .null => some ([pc], none)
    | .obj _ => _matchMap O path x spec
    | _ => some ([pc], none)
termination_by 2 * (sizeOf x + sizeOf spec) + 1
decreasing_by
  all_goals subst_vars
  all_goals simp_wf

/-- Port of `_matchSlice`: wildcard detection for a two-element pattern
whose first element is the marker `"#array-of"`, then the element loop.
The length-equality test is inside the source's `else if`, hence skipped
whenever the pattern has exactly two elements. -/
def _matchSlice (O : Oracles) (path : String) (x y : JValue) : MRes :=
  let pc : Conflict := { path := path, expected := y, actual := x, err := none }
  match hxm : x with
  | .arr xs =>
    match hym : y with
    | .arr ys =>
      match hys : ys with
      | [first, second] =>
        if (getMarker first).1 ∧ (getMarker first).2 = "#array-of" then
          _matchSliceLoop O path 0 xs [] (some second)
        else
          _matchSliceLoop O path 0 xs ys none
      | _ =>
        if xs.length ≠ ys.length then some ([pc], none)
        else _matchSliceLoop O path 0 xs ys none
    | _ =>
      some ([pc], some ("wrong kind for pattern value, expected Slice, got " ++ goKindName x))
  | _ =>
    some ([pc], some ("wrong kind for left value, expected Slice, got " ++ goKindName x))
termination_by 2 * (sizeOf x + sizeOf y)
decreasing_by
  all_goals subst_vars
  all_goals simp_wf
  all_goals omega

/-- Port of the element loop of `_matchSlice` (`for i := 0; i < sliceLen`):
`xs` is the not-yet-visited tail of the actual array and `i` the current
index.  In the source the per-element spec is `arrayOf` for the wildcard
form (modelled by `arrayOf = some w`) and `vY.Index(i)` otherwise;
`ysRem` is the not-yet-visited tail of the pattern array (the call site
passes the whole pattern array together with `i = 0`, so `ysRem` is
`ys.drop i` throughout and its head is exactly `ys[i]`).  `vY.Index(i)`
panics when `i >= len(ys)`, i.e. exactly when `ysRem` is exhausted while
elements of `xs` remain — modelled by the `none` result. -/
def _matchSliceLoop (O : Oracles) (path : String) (i : Nat) (xs ysRem : List JValue)
    (arrayOf : Option JValue) : MRes :=
  match xs with
  | [] => some ([], none)
  | xe :: rest =>
    match ha : arrayOf with
    | some w =>
      match _match O (path ++ "[" ++ toString i ++ "]") xe w with
      | none => none
      | some (itemConflicts, some e) =>
        some (itemConflicts, some ("can't compare slice element " ++ toString i ++ ": " ++ e))
      | some (itemConflicts, none) =>
        match _matchSliceLoop O path (i + 1) rest ysRem arrayOf with
        | none => none
        | some (cs, e2) => some (itemConflicts ++ cs, e2)
    | none =>
      match hr : ysRem with
      | [] => none
      | yh :: yt =>
        match _match O (path ++ "[" ++ toString i ++ "]") xe yh with
        | none => none
        | some (itemConflicts, some e) =>
          some (itemConflicts, some ("can't compare slice element " ++ toString i ++ ": " ++ e))
        | some (itemConflicts, none) =>
          match _matchSliceLoop O path (i + 1) rest yt arrayOf with
          | none => none
          | some (cs, e2) => some (itemConflicts ++ cs, e2)
termination_by 2 * (sizeOf xs + sizeOf ysRem + sizeOf arrayOf)
decreasing_by
  all_goals subst_vars
  all_goals simp_wf
  all_goals omega

/-- Port of `_matchMap`: kind guards (both error messages print
`vX.Kind()`, as the source does), Phase 1, and — only when Phase 1
produced no conflict — Phase 2. -/
def _matchMap (O : Oracles) (path : String) (x y : JValue) : MRes :=
  let pc : Conflict := { path := path, expected := y, actual := x, err := none }
  match hxm : x with
  | .obj xkv =>
    match hym : y with
    | .obj ykv =>
      match _matchMapCheckIteratingObject O path xkv ykv with
      | none => none
      | some (conflicts, err) =>
        if conflicts.length > 0 then some (conflicts, err)
        else _matchMapCheckIteratingSpec O path xkv ykv
    | _ =>
      some ([pc], some ("wrong kind for pattern value, expected Map, got " ++ goKindName x))
  | _ =>
    some ([pc], some ("wrong kind for left value, expected Map, got " ++ goKindName x))
termination_by 2 * (sizeOf x + sizeOf y)
decreasing_by
  all_goals subst_vars
  all_goals simp_wf
  all_goals omega

/-- Port of `_matchMapCheckIteratingObject` (Phase 1): iterate the
actual's entries; keys with no spec are skipped; a hard error from a
nested match is wrapped and returned with the conflicts so far. -/
def _matchMapCheckIteratingObject (O : Oracles) (path : String)
    (xkv ykv : List (String × JValue)) : MRes :=
  match xkv with
  | [] => some ([], none)
  | (k, xv) :: rest =>
    match hk : lookupJ ykv k with
    | none => _matchMapCheckIteratingObject O path rest ykv
    | some ySpecValue =>
      match _match O (path ++ "/" ++ k) xv ySpecValue with
      | none => none
      | some (itemConflicts, some e) =>
        some (itemConflicts, some ("can't compare map element " ++ path ++ "/" ++ k ++ ": " ++ e))
      | some (itemConflicts, none) =>
        match _matchMapCheckIteratingObject O path rest ykv with
        | none => none
        | some (cs, e2) => some (itemConflicts ++ cs, e2)
termination_by 2 * (sizeOf xkv + sizeOf ykv)
decreasing_by
  all_goals simp_wf
  all_goals (have hlt := sizeOf_lookupJ hk; omega)

/-- Port of `_matchMapCheckIteratingSpec` (Phase 2): iterate the
pattern's entries; exact-marker `#notpresent` / `#present` enforce
key absence/presence, `#ignore` skips, otherwise a missing key is a
conflict and a present key is matched recursively.  The `Actual` field of
the possible conflict is the source's `fmt.Sprint(xValue)` rendering. -/
def _matchMapCheckIteratingSpec (O : Oracles) (path : String)
    (xkv ykv : List (String × JValue)) : MRes :=
  match ykv with
  | [] => some ([], none)
  | (k, ySpecValue) :: rest =>
    let pc : Conflict := { path := path ++ "/" ++ k, expected := ySpecValue,
                           actual := .str (goSprintOpt (lookupJ xkv k)), err := none }
    if (getMarker ySpecValue).1 ∧ (getMarker ySpecValue).2 = "#notpresent" then
      match _matchMapCheckIteratingSpec O path xkv rest with
      | none => none
      | some (cs, e2) =>
        if (lookupJ xkv k).isSome then some (pc :: cs, e2) else some (cs, e2)
    else if (getMarker ySpecValue).1 ∧ (getMarker ySpecValue).2 = "#present" then
      match _matchMapCheckIteratingSpec O path xkv rest with
      | none => none
      | some (cs, e2) =>
        if (lookupJ xkv k).isSome then some (cs, e2) else some (pc :: cs, e2)
    else if isMarker ySpecValue "#ignore" then
      _matchMapCheckIteratingSpec O path xkv rest
    else
      match hx : lookupJ xkv k with
      | none =>
        match _matchMapCheckIteratingSpec O path xkv rest with
        | none => none
        | some (cs, e2) => some (pc :: cs, e2)
      | some xValue =>
        match _match O (path ++ "/" ++ k) xValue ySpecValue with
        | none => none
        | some (itemConflicts, some e) =>
          some (itemConflicts, some ("can't compare map element " ++ k ++ ": " ++ e))
        | some (itemConflicts, none) =>
          match _matchMapCheckIteratingSpec O path xkv rest with
          | none => none
          | some (cs, e2) => some (itemConflicts ++ cs, e2)
termination_by 2 * (sizeOf xkv + sizeOf ykv)
decreasing_by
  all_goals simp_wf
  all_goals (have hlt := sizeOf_lookupJ hx; omega)
end

/-- Post-processing of one conflict in `JSONMatches`: a path starting
with `//` has its first byte removed (`c.Path = c.Path[1:]`; the first
byte of such a path is the one-byte character `/`). -/
def stripDoubleSlashPath (c : Conflict) : Conflict :=
  if goStartsWith c.path "//" then { c with path := String.mk (c.path.data.drop 1) } else c

/-- Port of `JSONMatches`.  `unmarshal` models the external decoder
`json.Unmarshal` on the raw input (carried as `String`; only the decoder
consumes it, so its type is opaque to the matcher): a decode error
message, or the decoded value.  On a decode error the returned conflict
has only `Path` and `Error` set (the other fields are zero, i.e. nil). -/
def JSONMatches (O : Oracles) (unmarshal : String → Except String JValue)
    (j jPatternSpecifier : String) : MRes :=
  match unmarshal j with
  | .error e =>
    some ([{ path := "/", expected := .null, actual := .null, err := some e }],
          some ("can't unmarshal left argument: " ++ e))
  | .ok jAny =>
    match unmarshal jPatternSpecifier with
    | .error e =>
      some ([{ path := "/", expected := .null, actual := .null, err := some e }],
            some ("can't unmarshal pattern argument: " ++ e))
    | .ok patternSpecAny =>
      match _match O "/" jAny patternSpecAny with
      | none => none
      | some (conflicts, err) => some (conflicts.map stripDoubleSlashPath, err)

/-- Port of `JSONStringMatches`: the string-typed wrapper simply
delegates to `JSONMatches`. -/
def JSONStringMatches (O : Oracles) (unmarshal : String → Except String JValue)
    (j jPatternSpecifier : String) : MRes :=
  JSONMatches O unmarshal j jPatternSpecifier

/-- Marker names handled by the `switch` of `_matchWithMarker`; every
other name falls through to the unsupported-pattern error return. -/
def supportedMarkerNames : List String :=
  ["#ignore", "#null", "#notnull", "#present", "#notpresent", "#array", "#object",
   "#bool", "#boolean", "#number", "#string", "#date", "#datetime", "#uuid",
   "#uuid-v4", "#regex"]

mutual
/-- A value containing no marker string anywhere: no string at any depth
starts with `#`. -/
def markerFree : JValue → Bool
  | .null => true
  | .bool _ => true
  | .num _ => true
  | .str s => !goStartsWith s "#"
  | .arr xs => markerFreeList xs
  | .obj kvs => markerFreePairs kvs

/-- All elements of the list are marker-free. -/
def markerFreeList : List JValue → Bool
  | [] => true
  | v :: rest => markerFree v && markerFreeList rest

/-- All values of the association list are marker-free. -/
def markerFreePairs : List (String × JValue) → Bool
  | [] => true
  | (_, v) :: rest => markerFree v && markerFreePairs rest
end

mutual
/-- Well-formedness of a decoded value: every object at any depth has
pairwise distinct keys.  This holds of every value `json.Unmarshal`
produces (Go maps cannot contain a key twice), so it delimits the image
of the decoder inside the `JValue` model. -/
def wfJ : JValue → Bool
  | .null => true
  | .bool _ => true
  | .num _ => true
  | .str _ => true
  | .arr xs => wfList xs
  | .obj kvs => wfPairs kvs

/-- All elements of the list are well-formed. -/
def wfList : List JValue → Bool
  | [] => true
  | v :: rest => wfJ v && wfList rest

/-- Distinct keys, and all values well-formed. -/
def wfPairs : List (String × JValue) → Bool
  | [] => true
  | (k, v) :: rest => (lookupJ rest k).isNone && wfJ v && wfPairs rest
end

/-! Helper lemmas about marker splitting. -/

theorem splitOnFirstSpace_of_no_space (cs : List Char) (h : ∀ c ∈ cs, c ≠ ' ') :
    splitOnFirstSpace cs = (cs, none) := by
  induction cs with
  | nil => rfl
  | cons c rest ih =>
    have hc : c ≠ ' ' := h c (by simp)
    simp [splitOnFirstSpace, hc, ih (fun d hd => h d (by simp [hd]))]

theorem splitOnFirstSpace_append (a b : List Char) (h : ∀ c ∈ a, c ≠ ' ') :
    splitOnFirstSpace (a ++ ' ' :: b) = (a, some b) := by
  induction a with
  | nil => simp [splitOnFirstSpace]
  | cons c rest ih =>
    have hc : c ≠ ' ' := h c (by simp)
    simp [splitOnFirstSpace, hc, ih (fun d hd => h d (by simp [hd]))]

theorem splitN2_of_no_space (s : String) (h : ∀ c ∈ s.data, c ≠ ' ') :
    splitN2 s = (s, none) := by
  cases s with
  | mk d => simp [splitN2, splitOnFirstSpace_of_no_space d h]

theorem splitN2_append_space (a b : String) (h : ∀ c ∈ a.data, c ≠ ' ') :
    splitN2 (a ++ " " ++ b) = (a, some b) := by
  cases a with
  | mk da =>
    cases b with
    | mk db =>
      have hdata : ((String.mk da ++ " " ++ String.mk db) : String).data
          = da ++ ' ' :: db := by
        simp [String.data_append]
      simp only [splitN2, hdata, splitOnFirstSpace_append da db h]
      rfl

theorem splitN2_regex (arg : String) : splitN2 ("#regex " ++ arg) = ("#regex", some arg) :=
  splitN2_append_space "#regex" arg (by decide)

set_option maxHeartbeats 1000000 in
/-- A marker evaluation that returns a hard error always carries at least
one conflict. -/
theorem matchWithMarker_err_conflicts (O : Oracles) (path : String) (x : JValue)
    (marker : String) (cs : List Conflict) (e : String)
    (h : _matchWithMarker O path x marker = (cs, some e)) : cs ≠ [] := by
  rcases hp : splitN2 marker with ⟨name, optArg⟩
  rw [_matchWithMarker.eq_def] at h
  dsimp only [] at h
  rw [hp] at h
  dsimp only [] at h
  split at h
  · -- x is null: both arms carry a nil error, contradicting `some e`
    split at h <;> (injection h with h1 h2; exact Option.noConfusion h2)
  · -- x is not null: walk the name dispatch chain
    by_cases c1 : name = "#ignore"
    · rw [if_pos c1] at h
      injection h with h1 h2
      exact Option.noConfusion h2
    rw [if_neg c1] at h
    by_cases c2 : name = "#null"
    · rw [if_pos c2] at h
      injection h with h1 h2
      exact Option.noConfusion h2
    rw [if_neg c2] at h
    by_cases c3 : name = "#notnull"
    · rw [if_pos c3] at h
      injection h with h1 h2
      exact Option.noConfusion h2
    rw [if_neg c3] at h
    by_cases c4 : name = "#present"
    · rw [if_pos c4] at h
      injection h with h1 h2
      exact Option.noConfusion h2
    rw [if_neg c4] at h
    by_cases c5 : name = "#notpresent"
    · rw [if_pos c5] at h
      injection h with h1 h2
      exact Option.noConfusion h2
    rw [if_neg c5] at h
    by_cases c6 : name = "#array"
    · rw [if_pos c6] at h
      cases x <;> dsimp only [] at h <;> (injection h with h1 h2; exact Option.noConfusion h2)
    rw [if_neg c6] at h
    by_cases c7 : name = "#object"
    · rw [if_pos c7] at h
      cases x <;> dsimp only [] at h <;> (injection h with h1 h2; exact Option.noConfusion h2)
    rw [if_neg c7] at h
    by_cases c8 : name = "#bool" ∨ name = "#boolean"
    · rw [if_pos c8] at h
      cases x <;> dsimp only [] at h <;> (injection h with h1 h2; exact Option.noConfusion h2)
    rw [if_neg c8] at h
    by_cases c9 : name = "#number"
    · rw [if_pos c9] at h
      cases x <;> dsimp only [] at h <;> (injection h with h1 h2; exact Option.noConfusion h2)
    rw [if_neg c9] at h
    by_cases c10 : name = "#string"
    · rw [if_pos c10] at h
      cases x <;> dsimp only [] at h <;> (injection h with h1 h2; exact Option.noConfusion h2)
    rw [if_neg c10] at h
    by_cases c11 : name = "#date"
    · rw [if_pos c11] at h
      cases x <;> dsimp only [] at h <;> (try split at h) <;>
        (injection h with h1 h2; exact Option.noConfusion h2)
    rw [if_neg c11] at h
    by_cases c12 : name = "#datetime"
    · rw [if_pos c12] at h
      cases x <;> dsimp only [] at h <;> (try split at h) <;>
        (injection h with h1 h2; exact Option.noConfusion h2)
    rw [if_neg c12] at h
    by_cases c13 : name = "#uuid"
    · rw [if_pos c13] at h
      cases x <;> dsimp only [] at h <;> (try split at h) <;>
        (injection h with h1 h2; exact Option.noConfusion h2)
    rw [if_neg c13] at h
    by_cases c14 : name = "#uuid-v4"
    · rw [if_pos c14] at h
      cases x <;> dsimp only [] at h <;> (try split at h) <;>
        (injection h with h1 h2; exact Option.noConfusion h2)
    rw [if_neg c14] at h
    by_cases c15 : name = "#regex"
    · rw [if_pos c15] at h
      cases optArg with
      | none =>
        dsimp only [] at h
        injection h with h1 h2
        subst h1
        exact List.cons_ne_nil _ _
      | some arg =>
        dsimp only [] at h
        cases hc : O.regexCompile arg <;> rw [hc] at h <;> dsimp only [] at h
        · injection h with h1 h2
          subst h1
          exact List.cons_ne_nil _ _
        · cases x <;> dsimp only [] at h <;> (try split at h) <;>
            (injection h with h1 h2; exact Option.noConfusion h2)
    rw [if_neg c15] at h
    injection h with h1 h2
    subst h1
    exact List.cons_ne_nil _ _

/-! Claim C4. -/

/-- C4 counterexample: with a null actual value, `#regex` with a missing
argument yields one conflict but a NIL hard error, refuting the claim
that for every actual value the conflict comes with a non-null error:
the `!xV.IsValid()` return of `_matchWithMarker` fires before the
`#regex` branch is reached. -/
theorem C4_counterexample :
    (_matchWithMarker O0 "/" JValue.null "#regex").1 ≠ [] ∧
    (_matchWithMarker O0 "/" JValue.null "#regex").2 = none := by decide

/-- C4 (amended): for every NON-NULL actual value, evaluating `#regex`
with a missing argument, or with an argument the regex engine rejects,
yields a conflict together with a non-null hard error.  (With a null
actual the evaluator returns a conflict with a nil error before reaching
the `#regex` branch.) -/
theorem C4_regex_error (O : Oracles) (path : String) (x : JValue) (hx : x ≠ .null) :
    (_matchWithMarker O path x "#regex" =
      ([{ path := path, expected := .str "#regex", actual := x, err := none }],
        some "expected exactly one argument for #regex")) ∧
    (∀ arg e, O.regexCompile arg = .error e →
      _matchWithMarker O path x ("#regex " ++ arg) =
        ([{ path := path, expected := .str ("#regex " ++ arg), actual := x, err := none }],
          some ("invalid regex argument to #regex: " ++ e))) := by
  have h1 : splitN2 "#regex" = ("#regex", none) := rfl
  constructor
  · cases x <;> first
      | exact absurd rfl hx
      | simp [_matchWithMarker, h1]
  · intro arg e hc
    cases x <;> first
      | exact absurd rfl hx
      | simp [_matchWithMarker, splitN2_regex, hc]

/-- C4 witness: the amended theorem applied at the concrete non-null
actual value `1` and the concrete rejected pattern `(`. -/
theorem C4_witness :
    _matchWithMarker O0 "/" (.num 1) "#regex" =
      ([{ path := "/", expected := .str "#regex", actual := .num 1, err := none }],
        some "expected exactly one argument for #regex") ∧
    _matchWithMarker O0 "/" (.num 1) ("#regex " ++ "(") =
      ([{ path := "/", expected := .str ("#regex " ++ "("), actual := .num 1, err := none }],
        some ("invalid regex argument to #regex: " ++ "error parsing regexp")) :=
  ⟨(C4_regex_error O0 "/" (.num 1) (by decide)).1,
   (C4_regex_error O0 "/" (.num 1) (by decide)).2 "(" "error parsing regexp" rfl⟩

/-! Claim C5. -/

/-- C5 counterexample: with a null actual value, the unsupported marker
`#bogus` yields one conflict but a NIL hard error, refuting the claim
that every actual value gets a non-null error for an unsupported marker:
the `!xV.IsValid()` return fires before the name dispatch is reached. -/
theorem C5_counterexample :
    (_matchWithMarker O0 "/" JValue.null "#bogus").1 =
      [{ path := "/", expected := .str "#bogus", actual := .null, err := none }] ∧
    (_matchWithMarker O0 "/" JValue.null "#bogus").2 = none := by decide

/-- C5 (amended): for every NON-NULL actual value, a marker whose name
(the part before the first space) is not in the supported set yields
exactly one conflict plus a non-null hard error reporting the marker as
unsupported.  (With a null actual the evaluator returns a conflict with a
nil error before reaching the dispatch.) -/
theorem C5_unsupported_marker (O : Oracles) (path : String) (x : JValue) (marker : String)
    (hx : x ≠ .null) (hname : (splitN2 marker).1 ∉ supportedMarkerNames) :
    _matchWithMarker O path x marker =
      ([{ path := path, expected := .str marker, actual := x, err := none }],
        some ("unsupported pattern '" ++ marker ++ "'")) := by
  rcases hp : splitN2 marker with ⟨name, optArg⟩
  rw [hp] at hname
  simp only [supportedMarkerNames, List.mem_cons, List.not_mem_nil, or_false, not_or] at hname
  obtain ⟨n1, n2, n3, n4, n5, n6, n7, n8, n9, n10, n11, n12, n13, n14, n15, n16⟩ := hname
  cases x <;> first
    | exact absurd rfl hx
    | (rw [_matchWithMarker.eq_def]
       dsimp only []
       rw [hp]
       simp [n1, n2, n3, n4, n5, n6, n7, n8, n9, n10, n11, n12, n13, n14, n15, n16])

/-- C5 witness: the amended theorem applied at the concrete non-null
actual value `1` and the concrete unsupported marker `#bogus`. -/
theorem C5_witness :
    _matchWithMarker O0 "/" (.num 1) "#bogus" =
      ([{ path := "/", expected := .str "#bogus", actual := .num 1, err := none }],
        some ("unsupported pattern '" ++ "#bogus" ++ "'")) :=
  C5_unsupported_marker O0 "/" (.num 1) "#bogus" (by decide) (by decide)

/-! Claim C9. -/

/-- C9 counterexample: the marker text is split at the first SPACE, not
at the first whitespace character: with a tab after `#regex` no argument
is extracted (the claim would require name `#regex` and argument `A`),
and the whole text is reported as an unsupported marker. -/
theorem C9_counterexample :
    splitN2 "#regex\tA" = ("#regex\tA", none) ∧
    splitN2 "#regex\tA" ≠ ("#regex", some "A") ∧
    _matchWithMarker O0 "/" (.str "x") "#regex\tA" =
      ([{ path := "/", expected := .str "#regex\tA", actual := .str "x", err := none }],
        some "unsupported pattern '#regex\tA'") := by
  refine ⟨rfl, by decide, rfl⟩

/-- C9 (amended): the marker name and its optional argument are obtained
by splitting the marker text at the first SPACE character (U+0020) only,
so the argument may itself contain spaces (or any other whitespace); in
particular for `#regex` followed by a space, the entire remainder is the
single regex argument. -/
theorem C9_split_at_first_space :
    (∀ s : String, (∀ c ∈ s.data, c ≠ ' ') → splitN2 s = (s, none)) ∧
    (∀ a b : String, (∀ c ∈ a.data, c ≠ ' ') → splitN2 (a ++ " " ++ b) = (a, some b)) ∧
    (∀ rest : String, splitN2 ("#regex " ++ rest) = ("#regex", some rest)) :=
  ⟨splitN2_of_no_space, splitN2_append_space, splitN2_regex⟩

/-- C9 witness: the amended theorem applied at concrete marker texts,
including an argument containing spaces and a tab. -/
theorem C9_witness :
    splitN2 "#uuid-v4" = ("#uuid-v4", none) ∧
    splitN2 ("#number" ++ " " ++ "x y") = ("#number", some "x y") ∧
    splitN2 ("#regex " ++ "a \tb c") = ("#regex", some "a \tb c") :=
  ⟨C9_split_at_first_space.1 "#uuid-v4" (by decide),
   C9_split_at_first_space.2.1 "#number" "x y" (by decide),
   C9_split_at_first_space.2.2 "a \tb c"⟩

/-! Claim C8. -/

/-- C8: when the decoder rejects either raw input, the entry point
returns exactly one conflict at path `/` carrying the decode error,
together with a non-null error naming the failing side. -/
theorem C8_decode_error (O : Oracles) (unmarshal : String → Except String JValue)
    (j p e : String) :
    (unmarshal j = .error e →
      JSONMatches O unmarshal j p =
        some ([{ path := "/", expected := .null, actual := .null, err := some e }],
              some ("can't unmarshal left argument: " ++ e))) ∧
    (∀ v, unmarshal j = .ok v → unmarshal p = .error e →
      JSONMatches O unmarshal j p =
        some ([{ path := "/", expected := .null, actual := .null, err := some e }],
              some ("can't unmarshal pattern argument: " ++ e))) := by
  constructor
  · intro h
    simp [JSONMatches, h]
  · intro v h1 h2
    simp [JSONMatches, h1, h2]

/-- C8 witness: the theorem applied with a concrete decoder that accepts
only the input `ok`, for a malformed actual and a malformed pattern. -/
theorem C8_witness :
    JSONMatches O0 (fun s => if s = "ok" then .ok .null else .error "unexpected end of input")
      "bad" "ok" =
      some ([{ path := "/", expected := .null, actual := .null,
               err := some "unexpected end of input" }],
            some ("can't unmarshal left argument: " ++ "unexpected end of input")) ∧
    JSONMatches O0 (fun s => if s = "ok" then .ok .null else .error "unexpected end of input")
      "ok" "bad" =
      some ([{ path := "/", expected := .null, actual := .null,
               err := some "unexpected end of input" }],
            some ("can't unmarshal pattern argument: " ++ "unexpected end of input")) :=
  ⟨(C8_decode_error O0 _ "bad" "ok" "unexpected end of input").1 rfl,
   (C8_decode_error O0 _ "ok" "bad" "unexpected end of input").2 .null rfl rfl⟩

/-! Claim C1. -/

/-- C1 evaluation at the failing inputs: with the two-element non-wildcard
pattern `[1, 2]`, the length-equality check sits in the source's
`else if` and is skipped, so a shorter actual array is matched
element-wise instead of producing exactly one whole-array conflict: the
empty actual array yields NO conflict at all (a successful match), and
the actual `[9]` yields a per-element conflict at `/[0]`. -/
theorem C1_skipped_length_check_eval :
    _matchSlice O0 "/" (.arr []) (.arr [.num 1, .num 2]) = some ([], none) ∧
    _matchSlice O0 "/" (.arr [.num 9]) (.arr [.num 1, .num 2]) =
      some ([{ path := "/[0]", expected := .num 1, actual := .num 9, err := none }], none) := by
  constructor
  · simp [_matchSlice, _matchSliceLoop, getMarker, goStartsWith]
  · simp [_matchSlice, _matchSliceLoop, getMarker, goStartsWith, _match, _matchPrimitive]
    decide

/-! Claim C2. -/

/-- C2 evaluation at the failing input: with the two-element non-wildcard
pattern `[1, 2]` and the three-element actual `[1, 2, 3]`, the element
loop reaches index 2, which is out of range of the pattern — the source
panics on `vY.Index(2)`, modelled by the `none` result. -/
theorem C2_pattern_index_out_of_range :
    _matchSlice O0 "/" (.arr [.num 1, .num 2, .num 3]) (.arr [.num 1, .num 2]) = none := by
  simp [_matchSlice, _matchSliceLoop, getMarker, goStartsWith, _match, _matchPrimitive]

/-! Claim C3. -/

/-- C3: if Phase 1 of the object matcher produces at least one conflict,
`_matchMap` returns that Phase 1 result unchanged (Phase 2 is never
consulted); Phase 2 determines the result exactly when Phase 1 produced
zero conflicts. -/
theorem C3_phase1_short_circuit (O : Oracles) (path : String)
    (xkv ykv : List (String × JValue)) (cs : List Conflict) (e : Option String)
    (h : _matchMapCheckIteratingObject O path xkv ykv = some (cs, e)) :
    (cs ≠ [] → _matchMap O path (.obj xkv) (.obj ykv) = some (cs, e)) ∧
    (cs = [] → _matchMap O path (.obj xkv) (.obj ykv) =
      _matchMapCheckIteratingSpec O path xkv ykv) := by
  constructor
  · intro hne
    have hlen : 0 < cs.length := List.length_pos.mpr hne
    simp [_matchMap, h, hlen]
  · intro hnil
    subst hnil
    simp [_matchMap, h]

/-- C3 witness: the theorem applied at a concrete object pair whose
Phase 1 yields one conflict. -/
theorem C3_witness :
    _matchMap O0 "/" (.obj [("a", .num 1)]) (.obj [("a", .num 2)]) =
      some ([{ path := "//a", expected := .num 2, actual := .num 1, err := none }], none) :=
  (C3_phase1_short_circuit O0 "/" [("a", .num 1)] [("a", .num 2)]
      [{ path := "//a", expected := .num 2, actual := .num 1, err := none }] none
      (by simp [_matchMapCheckIteratingObject, lookupJ, _match, _matchPrimitive])).1
    (by decide)

/-! Claim C10. -/

/-- C10 counterexample: the returned conflict path may still begin with
`//`.  With empty object keys the produced path is `///a`; stripping one
leading slash returns `//a`, refuting the claim's conclusion that no
returned conflict path begins with `//`. -/
theorem C10_counterexample :
    JSONMatches O0
      (fun s => if s = "A" then .ok (.obj [("", .obj [("a", .num 1)])])
                else .ok (.obj [("", .obj [("a", .num 2)])]))
      "A" "P" =
      some ([{ path := "//a", expected := .num 2, actual := .num 1, err := none }], none) ∧
    goStartsWith "//a" "//" = true := by
  constructor
  · simp [JSONMatches, _match, _matchMap, _matchMapCheckIteratingObject, lookupJ,
      _matchPrimitive, stripDoubleSlashPath, goStartsWith]
  · decide

/-- C10 (amended): every produced conflict path that begins with `//` has
exactly one leading slash stripped before being returned, and every other
produced path is returned unchanged (a returned path may therefore still
begin with `//` when the produced path began with `///`). -/
theorem C10_strip_one_slash (O : Oracles) (unmarshal : String → Except String JValue)
    (j p : String) (v w : JValue) (cs : List Conflict) (e : Option String)
    (h1 : unmarshal j = .ok v) (h2 : unmarshal p = .ok w)
    (h3 : _match O "/" v w = some (cs, e)) :
    JSONMatches O unmarshal j p = some (cs.map stripDoubleSlashPath, e) ∧
    List.Forall₂ (fun c c' =>
        (goStartsWith c.path "//" = true ∧
          c' = { c with path := String.mk (c.path.data.drop 1) }) ∨
        (goStartsWith c.path "//" = false ∧ c' = c))
      cs (cs.map stripDoubleSlashPath) := by
  constructor
  · simp [JSONMatches, h1, h2, h3]
  · clear h3
    induction cs with
    | nil => simp
    | cons c rest ih =>
      simp only [List.map_cons]
      refine List.Forall₂.cons ?_ ih
      by_cases hc : goStartsWith c.path "//"
      · exact Or.inl ⟨hc, by simp [stripDoubleSlashPath, hc]⟩
      · exact Or.inr ⟨by simpa using hc, by simp [stripDoubleSlashPath, hc]⟩

/-- C10 witness: the amended theorem applied at a concrete decoded pair
producing one root conflict (whose path `/` is returned unchanged). -/
theorem C10_witness :
    JSONMatches O0 (fun s => if s = "A" then .ok (.num 1) else .ok (.num 2)) "A" "P" =
      some (([{ path := "/", expected := .num 2, actual := .num 1,
                err := none }]).map stripDoubleSlashPath, none) ∧
    List.Forall₂ (fun c c' =>
        (goStartsWith c.path "//" = true ∧
          c' = { c with path := String.mk (c.path.data.drop 1) }) ∨
        (goStartsWith c.path "//" = false ∧ c' = c))
      [{ path := "/", expected := .num 2, actual := .num 1, err := none }]
      (([{ path := "/", expected := .num 2, actual := .num 1,
           err := none }]).map stripDoubleSlashPath) :=
  C10_strip_one_slash O0 (fun s => if s = "A" then .ok (.num 1) else .ok (.num 2))
    "A" "P" (.num 1) (.num 2)
    [{ path := "/", expected := .num 2, actual := .num 1, err := none }] none
    rfl rfl (by simp [_match, _matchPrimitive])

/-! Claim C6: a hard error always comes with at least one conflict. -/

/-- A list with a non-empty right part of an append is non-empty. -/
theorem ne_nil_append_right {α : Type} {a b : List α} (h : b ≠ []) : a ++ b ≠ [] := by
  intro hc
  rw [List.append_eq_nil] at hc
  exact h hc.2

/-- Joint size-bounded statement of the error-implies-conflicts invariant
over the whole recursive family, proved by strong induction on the size
bound. -/
theorem errNE (n : Nat) (O : Oracles) :
    (∀ (path : String) (x y : JValue) (cs : List Conflict) (e : String),
       sizeOf x + sizeOf y ≤ n → _match O path x y = some (cs, some e) → cs ≠ []) ∧
    (∀ (path : String) (i : Nat) (xs ysRem : List JValue) (arrayOf : Option JValue)
       (cs : List Conflict) (e : String),
       sizeOf xs + sizeOf ysRem + sizeOf arrayOf ≤ n →
       _matchSliceLoop O path i xs ysRem arrayOf = some (cs, some e) → cs ≠ []) ∧
    (∀ (path : String) (x y : JValue) (cs : List Conflict) (e : String),
       sizeOf x + sizeOf y ≤ n → _matchSlice O path x y = some (cs, some e) → cs ≠ []) ∧
    (∀ (path : String) (xkv ykv : List (String × JValue)) (cs : List Conflict) (e : String),
       sizeOf xkv + sizeOf ykv ≤ n →
       _matchMapCheckIteratingObject O path xkv ykv = some (cs, some e) → cs ≠ []) ∧
    (∀ (path : String) (xkv ykv : List (String × JValue)) (cs : List Conflict) (e : String),
       sizeOf xkv + sizeOf ykv ≤ n →
       _matchMapCheckIteratingSpec O path xkv ykv = some (cs, some e) → cs ≠ []) ∧
    (∀ (path : String) (x y : JValue) (cs : List Conflict) (e : String),
       sizeOf x + sizeOf y ≤ n → _matchMap O path x y = some (cs, some e) → cs ≠ []) := by
  induction n using Nat.strong_induction_on with
  | _ n IH =>
  have IHm := fun m hm => (IH m hm).1
  have IHloop := fun m hm => (IH m hm).2.1
  have IHp1 := fun m hm => (IH m hm).2.2.2.1
  have IHp2 := fun m hm => (IH m hm).2.2.2.2.1
  have hLoop : ∀ (path : String) (i : Nat) (xs ysRem : List JValue) (arrayOf : Option JValue)
      (cs : List Conflict) (e : String),
      sizeOf xs + sizeOf ysRem + sizeOf arrayOf ≤ n →
      _matchSliceLoop O path i xs ysRem arrayOf = some (cs, some e) → cs ≠ [] := by
    intro path i xs ysRem arrayOf cs e hb h
    cases xs with
    | nil => simp [_matchSliceLoop] at h
    | cons xe rest =>
      cases arrayOf with
      | some w =>
        simp only [_matchSliceLoop] at h
        cases hm : _match O (path ++ "[" ++ toString i ++ "]") xe w with
        | none => rw [hm] at h; simp at h
        | some pr =>
          obtain ⟨ics, e1⟩ := pr
          rw [hm] at h
          cases e1 with
          | some e2 =>
            simp only [Option.some.injEq, Prod.mk.injEq] at h
            obtain ⟨h1, h2⟩ := h
            subst h1
            have hms : sizeOf xe + sizeOf w < n := by simp at hb; omega
            exact IHm _ hms _ xe w ics e2 (le_refl _) hm
          | none =>
            cases hrec : _matchSliceLoop O path (i + 1) rest ysRem (some w) with
            | none => rw [hrec] at h; simp at h
            | some pr2 =>
              obtain ⟨cs2, e2⟩ := pr2
              rw [hrec] at h
              simp only [Option.some.injEq, Prod.mk.injEq] at h
              obtain ⟨h1, h2⟩ := h
              subst h1
              subst h2
              have hms : sizeOf rest + sizeOf ysRem + sizeOf (some w : Option JValue) < n := by
                simp at hb ⊢
                omega
              exact ne_nil_append_right
                (IHloop _ hms path (i + 1) rest ysRem (some w) cs2 e (le_refl _) hrec)
      | none =>
        cases ysRem with
        | nil => simp [_matchSliceLoop] at h
        | cons yh yt =>
          simp only [_matchSliceLoop] at h
          cases hm : _match O (path ++ "[" ++ toString i ++ "]") xe yh with
          | none => rw [hm] at h; simp at h
          | some pr =>
            obtain ⟨ics, e1⟩ := pr
            rw [hm] at h
            cases e1 with
            | some e2 =>
              simp only [Option.some.injEq, Prod.mk.injEq] at h
              obtain ⟨h1, h2⟩ := h
              subst h1
              have hms : sizeOf xe + sizeOf yh < n := by simp at hb; omega
              exact IHm _ hms _ xe yh ics e2 (le_refl _) hm
            | none =>
              cases hrec : _matchSliceLoop O path (i + 1) rest yt none with
              | none => rw [hrec] at h; simp at h
              | some pr2 =>
                obtain ⟨cs2, e2⟩ := pr2
                rw [hrec] at h
                simp only [Option.some.injEq, Prod.mk.injEq] at h
                obtain ⟨h1, h2⟩ := h
                subst h1
                subst h2
                have hms : sizeOf rest + sizeOf yt + sizeOf (none : Option JValue) < n := by
                  simp at hb ⊢
                  omega
                exact ne_nil_append_right
                  (IHloop _ hms path (i + 1) rest yt none cs2 e (le_refl _) hrec)
  have hP1 : ∀ (path : String) (xkv ykv : List (String × JValue)) (cs : List Conflict)
      (e : String), sizeOf xkv + sizeOf ykv ≤ n →
      _matchMapCheckIteratingObject O path xkv ykv = some (cs, some e) → cs ≠ [] := by
    intro path xkv ykv cs e hb h
    cases xkv with
    | nil => simp [_matchMapCheckIteratingObject] at h
    | cons p rest =>
      obtain ⟨k, xv⟩ := p
      simp only [_matchMapCheckIteratingObject] at h
      split at h
      · -- no spec for this key: skip
        have hms : sizeOf rest + sizeOf ykv < n := by simp at hb; omega
        exact IHp1 _ hms path rest ykv cs e (le_refl _) h
      · rename_i yv hk
        cases hm : _match O (path ++ "/" ++ k) xv yv with
        | none => rw [hm] at h; simp at h
        | some pr =>
          obtain ⟨ics, e1⟩ := pr
          rw [hm] at h
          cases e1 with
          | some e2 =>
            simp only [Option.some.injEq, Prod.mk.injEq] at h
            obtain ⟨h1, h2⟩ := h
            subst h1
            have hlk := sizeOf_lookupJ hk
            have hms : sizeOf xv + sizeOf yv < n := by simp at hb; omega
            exact IHm _ hms _ xv yv ics e2 (le_refl _) hm
          | none =>
            cases hrec : _matchMapCheckIteratingObject O path rest ykv with
            | none => rw [hrec] at h; simp at h
            | some pr2 =>
              obtain ⟨cs2, e2⟩ := pr2
              rw [hrec] at h
              simp only [Option.some.injEq, Prod.mk.injEq] at h
              obtain ⟨h1, h2⟩ := h
              subst h1
              subst h2
              have hms : sizeOf rest + sizeOf ykv < n := by simp at hb; omega
              exact ne_nil_append_right (IHp1 _ hms path rest ykv cs2 e (le_refl _) hrec)
  have hP2 : ∀ (path : String) (xkv ykv : List (String × JValue)) (cs : List Conflict)
      (e : String), sizeOf xkv + sizeOf ykv ≤ n →
      _matchMapCheckIteratingSpec O path xkv ykv = some (cs, some e) → cs ≠ [] := by
    intro path xkv ykv cs e hb h
    cases ykv with
    | nil => simp [_matchMapCheckIteratingSpec] at h
    | cons p rest =>
      obtain ⟨k, yv⟩ := p
      simp only [_matchMapCheckIteratingSpec] at h
      have hmsrec : sizeOf xkv + sizeOf rest < n := by simp at hb; omega
      by_cases c1 : (getMarker yv).1 = true ∧ (getMarker yv).2 = "#notpresent"
      · rw [if_pos c1] at h
        cases hrec : _matchMapCheckIteratingSpec O path xkv rest with
        | none => rw [hrec] at h; simp at h
        | some pr2 =>
          obtain ⟨cs2, e2⟩ := pr2
          rw [hrec] at h
          dsimp only [] at h
          by_cases hs : (lookupJ xkv k).isSome = true
          · rw [if_pos hs] at h
            simp only [Option.some.injEq, Prod.mk.injEq] at h
            obtain ⟨h1, h2⟩ := h
            subst h1
            exact List.cons_ne_nil _ _
          · rw [if_neg hs] at h
            simp only [Option.some.injEq, Prod.mk.injEq] at h
            obtain ⟨h1, h2⟩ := h
            subst h1
            subst h2
            exact IHp2 _ hmsrec path xkv rest cs2 e (le_refl _) hrec
      rw [if_neg c1] at h
      by_cases c2 : (getMarker yv).1 = true ∧ (getMarker yv).2 = "#present"
      · rw [if_pos c2] at h
        cases hrec : _matchMapCheckIteratingSpec O path xkv rest with
        | none => rw [hrec] at h; simp at h
        | some pr2 =>
          obtain ⟨cs2, e2⟩ := pr2
          rw [hrec] at h
          dsimp only [] at h
          by_cases hs : (lookupJ xkv k).isSome = true
          · rw [if_pos hs] at h
            simp only [Option.some.injEq, Prod.mk.injEq] at h
            obtain ⟨h1, h2⟩ := h
            subst h1
            subst h2
            exact IHp2 _ hmsrec path xkv rest cs2 e (le_refl _) hrec
          · rw [if_neg hs] at h
            simp only [Option.some.injEq, Prod.mk.injEq] at h
            obtain ⟨h1, h2⟩ := h
            subst h1
            exact List.cons_ne_nil _ _
      rw [if_neg c2] at h
      by_cases c3 : isMarker yv "#ignore" = true
      · rw [if_pos c3] at h
        exact IHp2 _ hmsrec path xkv rest cs e (le_refl _) h
      rw [if_neg c3] at h
      split at h
      · -- key absent from actual: a conflict is prepended
        cases hrec : _matchMapCheckIteratingSpec O path xkv rest with
        | none => rw [hrec] at h; simp at h
        | some pr2 =>
          obtain ⟨cs2, e2⟩ := pr2
          rw [hrec] at h
          simp only [Option.some.injEq, Prod.mk.injEq] at h
          obtain ⟨h1, h2⟩ := h
          subst h1
          exact List.cons_ne_nil _ _
      · -- key present: recursive match, then the rest of the loop
        rename_i xv hx
        cases hm : _match O (path ++ "/" ++ k) xv yv with
        | none => rw [hm] at h; simp at h
        | some pr =>
          obtain ⟨ics, e1⟩ := pr
          rw [hm] at h
          cases e1 with
          | some e2 =>
            simp only [Option.some.injEq, Prod.mk.injEq] at h
            obtain ⟨h1, h2⟩ := h
            subst h1
            have hlk := sizeOf_lookupJ hx
            have hms : sizeOf xv + sizeOf yv < n := by simp at hb; omega
            exact IHm _ hms _ xv yv ics e2 (le_refl _) hm
          | none =>
            cases hrec : _matchMapCheckIteratingSpec O path xkv rest with
            | none => rw [hrec] at h; simp at h
            | some pr2 =>
              obtain ⟨cs2, e2⟩ := pr2
              rw [hrec] at h
              simp only [Option.some.injEq, Prod.mk.injEq] at h
              obtain ⟨h1, h2⟩ := h
              subst h1
              subst h2
              exact ne_nil_append_right
                (IHp2 _ hmsrec path xkv rest cs2 e (le_refl _) hrec)
  have hSlice : ∀ (path : String) (x y : JValue) (cs : List Conflict) (e : String),
      sizeOf x + sizeOf y ≤ n → _matchSlice O path x y = some (cs, some e) → cs ≠ [] := by
    intro path x y cs e hb h
    cases x with
    | arr xs =>
      cases y with
      | arr ys =>
        rcases ys with _ | ⟨f, _ | ⟨s2, _ | ⟨t3, ts⟩⟩⟩
        · simp only [_matchSlice] at h
          split at h
          · simp at h
          · have hms : sizeOf xs + sizeOf ([] : List JValue) +
                sizeOf (none : Option JValue) < n := by simp at hb ⊢; omega
            exact IHloop _ hms path 0 xs [] none cs e (le_refl _) h
        · simp only [_matchSlice] at h
          split at h
          · simp at h
          · have hms : sizeOf xs + sizeOf [f] + sizeOf (none : Option JValue) < n := by
              simp at hb ⊢; omega
            exact IHloop _ hms path 0 xs [f] none cs e (le_refl _) h
        · simp only [_matchSlice] at h
          split at h
          · have hms : sizeOf xs + sizeOf ([] : List JValue) +
                sizeOf (some s2 : Option JValue) < n := by simp at hb ⊢; omega
            exact IHloop _ hms path 0 xs [] (some s2) cs e (le_refl _) h
          · have hms : sizeOf xs + sizeOf [f, s2] + sizeOf (none : Option JValue) < n := by
              simp at hb ⊢; omega
            exact IHloop _ hms path 0 xs [f, s2] none cs e (le_refl _) h
        · simp only [_matchSlice] at h
          split at h
          · simp at h
          · have hms : sizeOf xs + sizeOf (f :: s2 :: t3 :: ts) +
                sizeOf (none : Option JValue) < n := by simp at hb ⊢; omega
            exact IHloop _ hms path 0 xs (f :: s2 :: t3 :: ts) none cs e (le_refl _) h
      | null =>
        simp only [_matchSlice, Option.some.injEq, Prod.mk.injEq] at h
        obtain ⟨h1, h2⟩ := h
        subst h1
        exact List.cons_ne_nil _ _
      | bool b =>
        simp only [_matchSlice, Option.some.injEq, Prod.mk.injEq] at h
        obtain ⟨h1, h2⟩ := h
        subst h1
        exact List.cons_ne_nil _ _
      | num q =>
        simp only [_matchSlice, Option.some.injEq, Prod.mk.injEq] at h
        obtain ⟨h1, h2⟩ := h
        subst h1
        exact List.cons_ne_nil _ _
      | str s =>
        simp only [_matchSlice, Option.some.injEq, Prod.mk.injEq] at h
        obtain ⟨h1, h2⟩ := h
        subst h1
        exact List.cons_ne_nil _ _
      | obj kvs =>
        simp only [_matchSlice, Option.some.injEq, Prod.mk.injEq] at h
        obtain ⟨h1, h2⟩ := h
        subst h1
        exact List.cons_ne_nil _ _
    | null =>
      simp only [_matchSlice, Option.some.injEq, Prod.mk.injEq] at h
      obtain ⟨h1, h2⟩ := h
      subst h1
      exact List.cons_ne_nil _ _
    | bool b =>
      simp only [_matchSlice, Option.some.injEq, Prod.mk.injEq] at h
      obtain ⟨h1, h2⟩ := h
      subst h1
      exact List.cons_ne_nil _ _
    | num q =>
      simp only [_matchSlice, Option.some.injEq, Prod.mk.injEq] at h
      obtain ⟨h1, h2⟩ := h
      subst h1
      exact List.cons_ne_nil _ _
    | str s =>
      simp only [_matchSlice, Option.some.injEq, Prod.mk.injEq] at h
      obtain ⟨h1, h2⟩ := h
      subst h1
      exact List.cons_ne_nil _ _
    | obj kvs =>
      simp only [_matchSlice, Option.some.injEq, Prod.mk.injEq] at h
      obtain ⟨h1, h2⟩ := h
      subst h1
      exact List.cons_ne_nil _ _
  have hMap : ∀ (path : String) (x y : JValue) (cs : List Conflict) (e : String),
      sizeOf x + sizeOf y ≤ n → _matchMap O path x y = some (cs, some e) → cs ≠ [] := by
    intro path x y cs e hb h
    cases x with
    | obj xkv =>
      cases y with
      | obj ykv =>
        simp only [_matchMap] at h
        cases hp1 : _matchMapCheckIteratingObject O path xkv ykv with
        | none => rw [hp1] at h; simp at h
        | some pr =>
          obtain ⟨conflicts, err⟩ := pr
          rw [hp1] at h
          dsimp only [] at h
          by_cases hlen : conflicts.length > 0
          · rw [if_pos hlen] at h
            simp only [Option.some.injEq, Prod.mk.injEq] at h
            obtain ⟨h1, h2⟩ := h
            subst h1
            exact List.length_pos.mp hlen
          · rw [if_neg hlen] at h
            have hms : sizeOf xkv + sizeOf ykv < n := by simp at hb; omega
            exact IHp2 _ hms path xkv ykv cs e (le_refl _) h
      | null =>
        simp only [_matchMap, Option.some.injEq, Prod.mk.injEq] at h
        obtain ⟨h1, h2⟩ := h
        subst h1
        exact List.cons_ne_nil _ _
      | bool b =>
        simp only [_matchMap, Option.some.injEq, Prod.mk.injEq] at h
        obtain ⟨h1, h2⟩ := h
        subst h1
        exact List.cons_ne_nil _ _
      | num q =>
        simp only [_matchMap, Option.some.injEq, Prod.mk.injEq] at h
        obtain ⟨h1, h2⟩ := h
        subst h1
        exact List.cons_ne_nil _ _
      | str s =>
        simp only [_matchMap, Option.some.injEq, Prod.mk.injEq] at h
        obtain ⟨h1, h2⟩ := h
        subst h1
        exact List.cons_ne_nil _ _
      | arr ys =>
        simp only [_matchMap, Option.some.injEq, Prod.mk.injEq] at h
        obtain ⟨h1, h2⟩ := h
        subst h1
        exact List.cons_ne_nil _ _
    | null =>
      simp only [_matchMap, Option.some.injEq, Prod.mk.injEq] at h
      obtain ⟨h1, h2⟩ := h
      subst h1
      exact List.cons_ne_nil _ _
    | bool b =>
      simp only [_matchMap, Option.some.injEq, Prod.mk.injEq] at h
      obtain ⟨h1, h2⟩ := h
      subst h1
      exact List.cons_ne_nil _ _
    | num q =>
      simp only [_matchMap, Option.some.injEq, Prod.mk.injEq] at h
      obtain ⟨h1, h2⟩ := h
      subst h1
      exact List.cons_ne_nil _ _
    | str s =>
      simp only [_matchMap, Option.some.injEq, Prod.mk.injEq] at h
      obtain ⟨h1, h2⟩ := h
      subst h1
      exact List.cons_ne_nil _ _
    | arr xs =>
      simp only [_matchMap, Option.some.injEq, Prod.mk.injEq] at h
      obtain ⟨h1, h2⟩ := h
      subst h1
      exact List.cons_ne_nil _ _
  have hMatch : ∀ (path : String) (x y : JValue) (cs : List Conflict) (e : String),
      sizeOf x + sizeOf y ≤ n → _match O path x y = some (cs, some e) → cs ≠ [] := by
    intro path x y cs e hb h
    rw [_match.eq_def] at h
    cases y with
    | null => simp at h
    | str s =>
      dsimp only [] at h
      split at h
      · injection h with h1
        exact matchWithMarker_err_conflicts O path x s cs e h1
      · cases x <;> simp at h
    | bool b => cases x <;> simp at h
    | num q => cases x <;> simp at h
    | arr ys =>
      cases x with
      | arr xs =>
        dsimp only [] at h
        exact hSlice path (.arr xs) (.arr ys) cs e hb h
      | null => simp at h
      | bool b => simp at h
      | num q => simp at h
      | str s => simp at h
      | obj kvs => simp at h
    | obj ykv =>
      cases x with
      | obj xkv =>
        dsimp only [] at h
        exact hMap path (.obj xkv) (.obj ykv) cs e hb h
      | null => simp at h
      | bool b => simp at h
      | num q => simp at h
      | str s => simp at h
      | arr xs => simp at h
  exact ⟨hMatch, hLoop, hSlice, hP1, hP2, hMap⟩

/-- C6: whenever matching returns a non-null hard error the conflict list
is non-empty; moreover, conflicts accumulated from earlier siblings
survive a later error: in the array-element loop and in object Phase 1,
an earlier element's conflicts are prepended to the conflicts of the
erroring remainder in the returned list. -/
theorem C6_error_accompanied_by_conflicts :
    (∀ (O : Oracles) (path : String) (x y : JValue) (cs : List Conflict) (e : String),
       _match O path x y = some (cs, some e) → cs ≠ []) ∧
    (∀ (O : Oracles) (path : String) (i : Nat) (xe yh : JValue) (rest yt : List JValue)
       (c0 cs : List Conflict) (e2 : String),
       _match O (path ++ "[" ++ toString i ++ "]") xe yh = some (c0, none) →
       _matchSliceLoop O path (i + 1) rest yt none = some (cs, some e2) →
       _matchSliceLoop O path i (xe :: rest) (yh :: yt) none = some (c0 ++ cs, some e2)) ∧
    (∀ (O : Oracles) (path k : String) (xv yv : JValue) (rest ykv : List (String × JValue))
       (ics cs : List Conflict) (e2 : String),
       lookupJ ykv k = some yv →
       _match O (path ++ "/" ++ k) xv yv = some (ics, none) →
       _matchMapCheckIteratingObject O path rest ykv = some (cs, some e2) →
       _matchMapCheckIteratingObject O path ((k, xv) :: rest) ykv =
         some (ics ++ cs, some e2)) := by
  refine ⟨?_, ?_, ?_⟩
  · intro O path x y cs e h
    exact (errNE (sizeOf x + sizeOf y) O).1 path x y cs e (le_refl _) h
  · intro O path i xe yh rest yt c0 cs e2 h1 h2
    simp only [_matchSliceLoop]
    rw [h1]
    dsimp only []
    rw [h2]
  · intro O path k xv yv rest ykv ics cs e2 hk h1 h2
    simp only [_matchMapCheckIteratingObject]
    split
    · rename_i hnone
      rw [hk] at hnone
      exact Option.noConfusion hnone
    · rename_i yv2 hk2
      rw [hk] at hk2
      injection hk2 with hv
      subst hv
      rw [h1]
      dsimp only []
      rw [h2]

/-- C6 witness: the three components applied at concrete inputs — a
marker error with conflict; an array whose first element mismatches and
whose second errors; the analogous object Phase 1 situation. -/
theorem C6_witness :
    ([{ path := "/", expected := .str "#zzz", actual := .num 1, err := none }] :
      List Conflict) ≠ [] ∧
    _matchSliceLoop O0 "/" 0 [.num 5, .num 5] [.num 6, .str "#zzz"] none =
      some ([{ path := "/[0]", expected := .num 6, actual := .num 5, err := none }] ++
              [{ path := "/[1]", expected := .str "#zzz", actual := .num 5, err := none }],
            some "can't compare slice element 1: unsupported pattern '#zzz'") ∧
    _matchMapCheckIteratingObject O0 "/" [("a", .num 5), ("b", .num 5)]
        [("a", .num 6), ("b", .str "#zzz")] =
      some ([{ path := "//a", expected := .num 6, actual := .num 5, err := none }] ++
              [{ path := "//b", expected := .str "#zzz", actual := .num 5, err := none }],
            some "can't compare map element //b: unsupported pattern '#zzz'") :=
  ⟨C6_error_accompanied_by_conflicts.1 O0 "/" (.num 1) (.str "#zzz")
      [{ path := "/", expected := .str "#zzz", actual := .num 1, err := none }]
      "unsupported pattern '#zzz'"
      (by simp [_match, _matchWithMarker, goStartsWith, splitN2, splitOnFirstSpace]),
   C6_error_accompanied_by_conflicts.2.1 O0 "/" 0 (.num 5) (.num 6) [.num 5] [.str "#zzz"]
      [{ path := "/[0]", expected := .num 6, actual := .num 5, err := none }]
      [{ path := "/[1]", expected := .str "#zzz", actual := .num 5, err := none }]
      "can't compare slice element 1: unsupported pattern '#zzz'"
      (by simp [_match, _matchPrimitive]; decide)
      (by simp [_matchSliceLoop, _match, _matchWithMarker, goStartsWith, splitN2,
            splitOnFirstSpace]
          decide),
   C6_error_accompanied_by_conflicts.2.2 O0 "/" "a" (.num 5) (.num 6) [("b", .num 5)]
      [("a", .num 6), ("b", .str "#zzz")]
      [{ path := "//a", expected := .num 6, actual := .num 5, err := none }]
      [{ path := "//b", expected := .str "#zzz", actual := .num 5, err := none }]
      "can't compare map element //b: unsupported pattern '#zzz'"
      (by simp [lookupJ])
      (by simp [_match, _matchPrimitive])
      (by simp [_matchMapCheckIteratingObject, lookupJ, _match, _matchWithMarker,
            goStartsWith, splitN2, splitOnFirstSpace])⟩

/-! Claim C7: reflexivity of matching on marker-free values. -/

/-- A marker-free value is not recognized as a marker. -/
theorem markerFree_getMarker {v : JValue} (h : markerFree v = true) :
    getMarker v = (false, "") := by
  cases v with
  | str s =>
    simp only [markerFree, Bool.not_eq_true'] at h
    simp [getMarker, h]
  | null => rfl
  | bool b => rfl
  | num q => rfl
  | arr l => rfl
  | obj kvs => rfl

/-- If a key has no binding, no pair with that key is in the list. -/
theorem lookupJ_not_mem {l : List (String × JValue)} {k : String}
    (h : lookupJ l k = none) : ∀ v, (k, v) ∉ l := by
  induction l with
  | nil => simp
  | cons p t ih =>
    obtain ⟨a, b⟩ := p
    simp only [lookupJ] at h
    split at h
    · exact absurd h (by simp)
    · rename_i hak
      intro v hv
      rcases List.mem_cons.mp hv with hv1 | hv2
      · injection hv1 with h1 h2
        exact hak h1.symm
      · exact ih h v hv2

/-- In an association list with distinct keys, lookup of the key of any
member pair returns exactly that pair's value. -/
theorem lookupJ_self_of_wf {kvs : List (String × JValue)} (hw : wfPairs kvs = true) :
    ∀ k v, (k, v) ∈ kvs → lookupJ kvs k = some v := by
  induction kvs with
  | nil => simp
  | cons p t ih =>
    obtain ⟨a, b⟩ := p
    simp only [wfPairs, Bool.and_eq_true, Option.isNone_iff_eq_none] at hw
    obtain ⟨⟨hnone, hwb⟩, hwt⟩ := hw
    intro k v hv
    rcases List.mem_cons.mp hv with hv1 | hv2
    · injection hv1 with h1 h2
      subst h1
      subst h2
      simp [lookupJ]
    · have hres := ih hwt k v hv2
      by_cases hak : a = k
      · subst hak
        exact absurd hv2 (lookupJ_not_mem hnone v)
      · simp [lookupJ, hak, hres]

/-- Values of a marker-free association list are marker-free. -/
theorem markerFreePairs_mem {kvs : List (String × JValue)}
    (h : markerFreePairs kvs = true) : ∀ k v, (k, v) ∈ kvs → markerFree v = true := by
  induction kvs with
  | nil => simp
  | cons p t ih =>
    obtain ⟨a, b⟩ := p
    simp only [markerFreePairs, Bool.and_eq_true] at h
    intro k v hv
    rcases List.mem_cons.mp hv with hv1 | hv2
    · injection hv1 with h1 h2
      subst h2
      exact h.1
    · exact ih h.2 k v hv2

/-- Values of a well-formed association list are well-formed. -/
theorem wfPairs_mem {kvs : List (String × JValue)}
    (h : wfPairs kvs = true) : ∀ k v, (k, v) ∈ kvs → wfJ v = true := by
  induction kvs with
  | nil => simp
  | cons p t ih =>
    obtain ⟨a, b⟩ := p
    simp only [wfPairs, Bool.and_eq_true, Option.isNone_iff_eq_none] at h
    obtain ⟨⟨hnone, hwb⟩, hwt⟩ := h
    intro k v hv
    rcases List.mem_cons.mp hv with hv1 | hv2
    · injection hv1 with h1 h2
      subst h2
      exact hwb
    · exact ih hwt k v hv2

/-- Joint size-bounded statement of reflexivity on marker-free
well-formed values, over the recursive family, by strong induction. -/
theorem selfMatch (n : Nat) (O : Oracles) :
    (∀ (path : String) (p : JValue), markerFree p = true → wfJ p = true →
       sizeOf p ≤ n → _match O path p p = some ([], none)) ∧
    (∀ (path : String) (i : Nat) (l : List JValue), markerFreeList l = true →
       wfList l = true → sizeOf l ≤ n →
       _matchSliceLoop O path i l l none = some ([], none)) ∧
    (∀ (path : String) (xRest kvs : List (String × JValue)),
       (∀ k v, (k, v) ∈ xRest →
          lookupJ kvs k = some v ∧ markerFree v = true ∧ wfJ v = true) →
       sizeOf xRest ≤ n →
       _matchMapCheckIteratingObject O path xRest kvs = some ([], none)) ∧
    (∀ (path : String) (kvs yRest : List (String × JValue)),
       (∀ k v, (k, v) ∈ yRest →
          lookupJ kvs k = some v ∧ markerFree v = true ∧ wfJ v = true) →
       sizeOf yRest ≤ n →
       _matchMapCheckIteratingSpec O path kvs yRest = some ([], none)) := by
  induction n using Nat.strong_induction_on with
  | _ n IH =>
  refine ⟨?_, ?_, ?_, ?_⟩
  · intro path p hm hw hb
    cases p with
    | null => simp [_match, _matchZero]
    | bool b => simp [_match, _matchPrimitive]
    | num q => simp [_match, _matchPrimitive]
    | str s =>
      simp only [markerFree, Bool.not_eq_true'] at hm
      simp [_match, hm, _matchPrimitive]
    | arr l =>
      simp only [markerFree] at hm
      simp only [wfJ] at hw
      have hms : sizeOf l < n := by simp at hb; omega
      have hloop := (IH (sizeOf l) hms).2.1 path 0 l hm hw (le_refl _)
      have hslice : _matchSlice O path (.arr l) (.arr l) = some ([], none) := by
        rcases l with _ | ⟨f, _ | ⟨s2, _ | ⟨t3, ts⟩⟩⟩
        · simp only [_matchSlice]
          rw [if_neg (by simp)]
          exact hloop
        · simp only [_matchSlice]
          rw [if_neg (by simp)]
          exact hloop
        · have hgf : getMarker f = (false, "") := markerFree_getMarker (by
            simp only [markerFreeList, Bool.and_eq_true] at hm
            exact hm.1)
          simp only [_matchSlice, hgf]
          rw [if_neg (by simp)]
          exact hloop
        · simp only [_matchSlice]
          rw [if_neg (by simp)]
          exact hloop
      rw [_match.eq_def]
      dsimp only []
      exact hslice
    | obj kvs =>
      simp only [markerFree] at hm
      simp only [wfJ] at hw
      have hms : sizeOf kvs < n := by simp at hb; omega
      have hmem : ∀ k v, (k, v) ∈ kvs →
          lookupJ kvs k = some v ∧ markerFree v = true ∧ wfJ v = true := by
        intro k v hv
        exact ⟨lookupJ_self_of_wf hw k v hv, markerFreePairs_mem hm k v hv,
          wfPairs_mem hw k v hv⟩
      have hp1 := (IH (sizeOf kvs) hms).2.2.1 path kvs kvs hmem (le_refl _)
      have hp2 := (IH (sizeOf kvs) hms).2.2.2 path kvs kvs hmem (le_refl _)
      rw [_match.eq_def]
      dsimp only []
      rw [_matchMap.eq_def]
      dsimp only []
      rw [hp1]
      dsimp only []
      rw [if_neg (by simp)]
      exact hp2
  · intro path i l hm hw hb
    cases l with
    | nil => simp [_matchSliceLoop]
    | cons v rest =>
      simp only [markerFreeList, Bool.and_eq_true] at hm
      simp only [wfList, Bool.and_eq_true] at hw
      have hv : sizeOf v < n := by simp at hb; omega
      have hrests : sizeOf rest < n := by simp at hb; omega
      have h1 := (IH (sizeOf v) hv).1 (path ++ "[" ++ toString i ++ "]") v hm.1 hw.1
        (le_refl _)
      have h2 := (IH (sizeOf rest) hrests).2.1 path (i + 1) rest hm.2 hw.2 (le_refl _)
      simp only [_matchSliceLoop]
      rw [h1]
      dsimp only []
      rw [h2]
      rfl
  · intro path xRest kvs hmem hb
    cases xRest with
    | nil => simp [_matchMapCheckIteratingObject]
    | cons p rest =>
      obtain ⟨k, v⟩ := p
      obtain ⟨hlk, hmf, hwf⟩ := hmem k v (by simp)
      have hv : sizeOf v < n := by simp at hb; omega
      have hr : sizeOf rest < n := by simp at hb; omega
      have h1 := (IH (sizeOf v) hv).1 (path ++ "/" ++ k) v hmf hwf (le_refl _)
      have h2 := (IH (sizeOf rest) hr).2.2.1 path rest kvs
        (fun k2 v2 hv2 => hmem k2 v2 (by simp [hv2])) (le_refl _)
      simp only [_matchMapCheckIteratingObject]
      split
      · rename_i hnone
        rw [hlk] at hnone
        exact Option.noConfusion hnone
      · rename_i yv hk2
        rw [hlk] at hk2
        injection hk2 with hyv
        subst hyv
        rw [h1]
        dsimp only []
        rw [h2]
        rfl
  · intro path kvs yRest hmem hb
    cases yRest with
    | nil => simp [_matchMapCheckIteratingSpec]
    | cons p rest =>
      obtain ⟨k, v⟩ := p
      obtain ⟨hlk, hmf, hwf⟩ := hmem k v (by simp)
      have hgm : getMarker v = (false, "") := markerFree_getMarker hmf
      have hv : sizeOf v < n := by simp at hb; omega
      have hr : sizeOf rest < n := by simp at hb; omega
      have h1 := (IH (sizeOf v) hv).1 (path ++ "/" ++ k) v hmf hwf (le_refl _)
      have h2 := (IH (sizeOf rest) hr).2.2.2 path kvs rest
        (fun k2 v2 hv2 => hmem k2 v2 (by simp [hv2])) (le_refl _)
      simp only [_matchMapCheckIteratingSpec]
      rw [if_neg (by simp [hgm])]
      rw [if_neg (by simp [hgm])]
      rw [if_neg (by simp [isMarker, hgm])]
      split
      · rename_i hnone
        rw [hlk] at hnone
        exact Option.noConfusion hnone
      · rename_i xv hk2
        rw [hlk] at hk2
        injection hk2 with hxv
        subst hxv
        rw [h1]
        dsimp only []
        rw [h2]
        rfl

/-- C7: matching any marker-free value (no string anywhere in it starts
with `#`) against itself produces zero conflicts and a nil error.
Well-formedness (`wfJ`) restricts quantification to the image of the
decoder: Go maps cannot repeat a key. -/
theorem C7_literal_reflexivity (O : Oracles) (path : String) (p : JValue)
    (hm : markerFree p = true) (hw : wfJ p = true) :
    _match O path p p = some ([], none) :=
  (selfMatch (sizeOf p) O).1 path p hm hw (le_refl _)

/-- C7 witness: reflexivity applied to a concrete marker-free value
containing an object, an array, and every primitive kind. -/
theorem C7_witness :
    _match O0 "/" (.obj [("a", .num 1), ("b", .arr [.str "x", .null, .bool true])])
        (.obj [("a", .num 1), ("b", .arr [.str "x", .null, .bool true])]) =
      some ([], none) :=
  C7_literal_reflexivity O0 "/" _
    (by simp [markerFree, markerFreeList, markerFreePairs, goStartsWith]
        decide)
    (by simp [wfJ, wfList, wfPairs, lookupJ])
